import Mathlib

/-!
Verification of the needle/volume storage core.

Shallow embedding of the Go sources (`store/needle.go`, `store/volume.go`,
the indexer file) into Lean.  Byte buffers are `List Nat` whose elements
are bytes (`< 256`).  Signed 32/64-bit machine integers are modelled as
`Int` with explicit two's-complement wrapping (`wrap32`) where overflow
can occur; Go's `%` on signed integers truncates toward zero and is
modelled by `Int.tmod`.  Functions that can panic at runtime (index out
of range) return `Option`, `none` being the panic.
-/

set_option maxRecDepth 100000

namespace Store

/-! ### Constants (src/store/needle.go lines 41-84) -/

def NeedleMaxSize : Nat := 5 * 1024 * 1024

def needleCookieSize : Nat := 8

def needleKeySize : Nat := 8

def needleFlagSize : Nat := 1

def needleSizeSize : Nat := 4

def needleMagicSize : Nat := 4

def NeedleHeaderSize : Nat :=
  needleMagicSize + needleCookieSize + needleKeySize + needleFlagSize + needleSizeSize

def NeedleFlagOffset : Nat := needleMagicSize + needleCookieSize + needleKeySize

def needleChecksumSize : Nat := 4

def NeedleFooterSize : Nat := needleMagicSize + needleChecksumSize

def needleOffsetBit : Nat := 32

def NeedlePaddingSize : Nat := 8

def NeedleStatusOK : Nat := 0

def NeedleStatusDel : Nat := 1

def NeedleCacheDelOffset : Nat := 0

/-- The padding-pattern table from src/store/needle.go lines 68-77.
It has exactly eight entries, indices 0 through 7; entry `i` is `i`
zero bytes.  There is no entry at index 8. -/
def needlePadding : List (List Nat) :=
  [[], [0], [0, 0], [0, 0, 0], [0, 0, 0, 0], [0, 0, 0, 0, 0],
   [0, 0, 0, 0, 0, 0], [0, 0, 0, 0, 0, 0, 0]]

def needleHeaderMagic : List Nat := [0x12, 0x34, 0x56, 0x78]

def needleFooterMagic : List Nat := [0x87, 0x65, 0x43, 0x21]

/-! ### Two's-complement int32 wrapping and Go `%` -/

/-- Go int32 arithmetic wraps (two's complement).  `wrap32 x` is the
int32 value whose bit pattern is `x mod 2^32`. -/
def wrap32 (x : Int) : Int := (x + 2 ^ 31) % 2 ^ 32 - 2 ^ 31

/-! ### Big-endian byte codec.

Modelled from the spec: the `BigEndian` helper used by needle.go and the
indexer is not among the given sources; the spec fixes its behaviour:
"Endianness is big-endian for all multi-byte integers", signed values in
two's complement. -/

/-- Modelled from the spec: big-endian bytes of `x mod 256^n`, most
significant first. -/
def putBE : Nat → Nat → List Nat
  | 0, _ => []
  | n + 1, x => x / 256 ^ n % 256 :: putBE n x

/-- Modelled from the spec: big-endian value of a byte list. -/
def beUint : List Nat → Nat
  | [] => 0
  | b :: l => b * 256 ^ l.length + beUint l

/-- Modelled from the spec: `BigEndian.PutUint32`. -/
def putUint32 (x : Nat) : List Nat := putBE 4 x

/-- Modelled from the spec: `BigEndian.PutInt64` (two's complement). -/
def putInt64 (x : Int) : List Nat := putBE 8 (x % 2 ^ 64).toNat

/-- Modelled from the spec: `BigEndian.PutInt32` (two's complement). -/
def putInt32 (x : Int) : List Nat := putBE 4 (x % 2 ^ 32).toNat

/-- Modelled from the spec: `BigEndian.Uint32` reads 4 bytes. -/
def getUint32 (b : List Nat) : Nat := beUint (b.take 4)

/-- Modelled from the spec: `BigEndian.Uint64` reads 8 bytes. -/
def getUint64 (b : List Nat) : Nat := beUint (b.take 8)

/-- Modelled from the spec: `BigEndian.Int64` reads 8 bytes, two's
complement. -/
def getInt64 (b : List Nat) : Int :=
  let v := getUint64 b
  if v < 2 ^ 63 then (v : Int) else (v : Int) - 2 ^ 64

/-- Modelled from the spec: `BigEndian.Int32` reads 4 bytes, two's
complement. -/
def getInt32 (b : List Nat) : Int :=
  let v := getUint32 b
  if v < 2 ^ 31 then (v : Int) else (v : Int) - 2 ^ 32

theorem putBE_length (n x : Nat) : (putBE n x).length = n := by
  induction n generalizing x with
  | zero => rfl
  | succ n ih => simp [putBE, ih]

theorem beUint_putBE (n x : Nat) : beUint (putBE n x) = x % 256 ^ n := by
  induction n with
  | zero => simp [putBE, beUint, Nat.mod_one]
  | succ n ih =>
    simp only [putBE, beUint, putBE_length, ih]
    rw [Nat.mod_pow_succ]
    ring

theorem take_putBE_append (n x : Nat) (r : List Nat) :
    (putBE n x ++ r).take n = putBE n x :=
  List.take_left' (putBE_length n x)

theorem getUint32_putUint32 (x : Nat) (r : List Nat) (h : x < 2 ^ 32) :
    getUint32 (putUint32 x ++ r) = x := by
  simp only [getUint32, putUint32, take_putBE_append, beUint_putBE]
  have h4 : (256 : Nat) ^ 4 = 2 ^ 32 := by norm_num
  rw [h4]
  exact Nat.mod_eq_of_lt h

theorem getInt64_putInt64 (x : Int) (r : List Nat)
    (h1 : -2 ^ 63 ≤ x) (h2 : x < 2 ^ 63) :
    getInt64 (putInt64 x ++ r) = x := by
  simp only [getInt64, getUint64, putInt64, take_putBE_append, beUint_putBE]
  have h8 : (256 : Nat) ^ 8 = 2 ^ 64 := by norm_num
  rw [h8]
  have hlt : (x % 2 ^ 64).toNat < 2 ^ 64 := by omega
  rw [Nat.mod_eq_of_lt hlt]
  omega

theorem getInt32_putInt32 (x : Int) (r : List Nat)
    (h1 : -2 ^ 31 ≤ x) (h2 : x < 2 ^ 31) :
    getInt32 (putInt32 x ++ r) = x := by
  simp only [getInt32, getUint32, putInt32, take_putBE_append, beUint_putBE]
  have h4 : (256 : Nat) ^ 4 = 2 ^ 32 := by norm_num
  rw [h4]
  have hlt : (x % 2 ^ 32).toNat < 2 ^ 32 := by omega
  rw [Nat.mod_eq_of_lt hlt]
  omega

/-! ### CRC-32, Koopman polynomial.

Models Go's `crc32.MakeTable(crc32.Koopman)` / `crc32.Update(0, table, data)`
(the reflected table-driven algorithm of hash/crc32). -/

def crc32KoopmanPoly : Nat := 0xEB31D82E

/-- One bit-step of the reflected CRC table generation. -/
def crcBitStep (c : Nat) : Nat :=
  if c % 2 = 1 then c / 2 ^^^ crc32KoopmanPoly else c / 2

/-- `crc32TableEntry i` is `crc32.MakeTable(crc32.Koopman)[i]`:
eight bit-steps starting from `i`. -/
def crc32TableEntry (i : Nat) : Nat :=
  crcBitStep (crcBitStep (crcBitStep (crcBitStep
    (crcBitStep (crcBitStep (crcBitStep (crcBitStep i)))))))

/-- One byte-step of `crc32.Update`: `tab[byte(crc)^b] ^ (crc >> 8)`. -/
def crc32Step (c b : Nat) : Nat := crc32TableEntry ((c ^^^ b) % 256) ^^^ c / 256

/-- `crc32Update data` models `crc32.Update(0, crc32Table, data)`:
complement, byte-steps, complement. -/
def crc32Update (data : List Nat) : Nat :=
  data.foldl crc32Step 0xFFFFFFFF ^^^ 0xFFFFFFFF

/-! ### NeedleCache packed entries (src/store/needle.go lines 86-100) -/

/-- `NewNeedleCache offset size` packs offset in the high 32 bits and
size in the low 32 bits (needle.go line 92). -/
def NewNeedleCache (offset size : Nat) : Nat := offset * 2 ^ 32 + size

/-- High 32 bits of a packed entry: `uint32(n >> 32)`. -/
def needleCacheOffset (n : Nat) : Nat := n / 2 ^ 32 % 2 ^ 32

/-- Low 32 bits of a packed entry: `int32(n)` (sizes are positive). -/
def needleCacheSize (n : Nat) : Nat := n % 2 ^ 32

theorem needleCacheOffset_pack (offset size : Nat)
    (ho : offset < 2 ^ 32) (hs : size < 2 ^ 32) :
    needleCacheOffset (NewNeedleCache offset size) = offset := by
  unfold needleCacheOffset NewNeedleCache
  omega

theorem needleCacheSize_pack (offset size : Nat) (hs : size < 2 ^ 32) :
    needleCacheSize (NewNeedleCache offset size) = size := by
  unfold needleCacheSize NewNeedleCache
  omega

/-! ### Needle codec (src/store/needle.go) -/

/-- `NeedleSize` (needle.go lines 272-281), int32 arithmetic.
Returns (padding, size, tooLarge?): `size = int32(25 + ds + 8)`,
`padding = 8 - size % 8` (Go `%` truncates: `Int.tmod`), `size += padding`,
error iff `size > NeedleMaxSize`. -/
def needleSize (ds : Int) : Int × Int × Bool :=
  let size := wrap32 (25 + ds + 8)
  let padding := 8 - Int.tmod size 8
  let size2 := wrap32 (size + padding)
  (padding, size2, decide (size2 > (NeedleMaxSize : Int)))

/-- `NeedleOffset` (needle.go lines 284-286): `uint32(offset / 8)` for a
non-negative byte offset. -/
def NeedleOffset (offset : Nat) : Nat := offset / 8 % 2 ^ 32

/-- Errors surfaced by the store (the `Err...` values used by
needle.go, volume.go and the indexer). -/
inductive StoreErr where
  | headerMagic
  | flag
  | size
  | footerMagic
  | checksum
  | padding
  | tooLarge
  | noNeedle
  | deleted
  | key
  | cookie
  | volumeDel
  | io
  deriving DecidableEq, Repr

/-- Result of `ParseHeader` (the fields of `Needle` it sets). -/
structure NeedleHeader where
  cookie : Int
  key : Int
  flag : Nat
  size : Int
  paddingSize : Int
  dataSize : Int
  deriving DecidableEq, Repr

/-- Result of `ParseData` (the fields it sets). -/
structure NeedleData where
  data : List Nat
  checksum : Nat
  deriving DecidableEq, Repr

/-- `Needle.ParseHeader` (needle.go lines 118-145) on a buffer of at
least 25 bytes: check header magic, read cookie and key, check the flag
is 0 or 1, read and range-check the size, compute the padding and
data-part sizes.  `(25 + size + 8) % 8` is on a positive operand, where
Go `%` agrees with `Int.emod`. -/
def parseHeader (buf : List Nat) : Except StoreErr NeedleHeader :=
  if buf.take 4 = needleHeaderMagic then
    if buf.getD 20 0 = NeedleStatusOK ∨ buf.getD 20 0 = NeedleStatusDel then
      if getInt32 (buf.drop 21) > (NeedleMaxSize : Int) ∨ getInt32 (buf.drop 21) < 1 then
        .error .size
      else
        .ok ⟨getInt64 (buf.drop 4), getInt64 (buf.drop 12), buf.getD 20 0,
          getInt32 (buf.drop 21),
          8 - (25 + getInt32 (buf.drop 21) + 8) % 8,
          getInt32 (buf.drop 21) + (8 - (25 + getInt32 (buf.drop 21) + 8) % 8) + 8⟩
    else .error .flag
  else .error .headerMagic

/-- `Needle.ParseData` (needle.go lines 148-173) on the data part
(`buf[25:]` of a record, of length `dataSize`): read the payload, check
the footer magic, recompute and compare the CRC, then compare the
padding region with `needlePadding[paddingSize]`.  The table access is
out of bounds when `paddingSize = 8`; `none` models that panic. -/
def parseData (h : NeedleHeader) (buf : List Nat) : Option (Except StoreErr NeedleData) :=
  if (buf.drop h.size.toNat).take 4 = needleFooterMagic then
    if getUint32 (buf.drop (h.size.toNat + 4)) = crc32Update (buf.take h.size.toNat) then
      match needlePadding[h.paddingSize.toNat]? with
      | none => none
      | some pat =>
        if (buf.drop (h.size.toNat + 8)).take h.paddingSize.toNat = pat then
          some (.ok ⟨buf.take h.size.toNat, getUint32 (buf.drop (h.size.toNat + 4))⟩)
        else some (.error .padding)
    else some (.error .checksum)
  else some (.error .footerMagic)

/-- `FillNeedle` (needle.go lines 217-251) on a destination buffer of
exactly the record length: writes header magic, cookie, key, the OK
flag, the size field, the data, footer magic, the CRC of the data, and
the pattern `needlePadding[padding]`.  When `padding` is outside the
table (in particular `padding = 8`) the Go code panics with an
index-out-of-range: modelled by `none`. -/
def fillNeedle (padding size key cookie : Int) (data : List Nat) : Option (List Nat) :=
  if padding < 0 then none
  else
    match needlePadding[padding.toNat]? with
    | none => none
    | some pad =>
      some (needleHeaderMagic ++ putInt64 cookie ++ putInt64 key ++ [NeedleStatusOK] ++
        putInt32 size ++ data ++ needleFooterMagic ++ putUint32 (crc32Update data) ++ pad)

/-! ### Volume (src/store/volume.go) -/

def volumeFinish : Nat := 0

def volumeDelChNum : Nat := 10240

def volumeDelMax : Nat := 50

/-- Pointwise update of a needle map (`v.needles[key] = ...`). -/
def mapSet (m : Int → Option Nat) (k : Int) (v : Nat) : Int → Option Nat :=
  fun k' => if k' = k then some v else m k'

/-- The state of a `Volume` that the claims are about: the needle cache,
the contents of the bounded delete channel `signal` (capacity
`volumeDelChNum`), and the compaction fields. -/
structure VolumeState where
  needles : Int → Option Nat
  signal : List Nat
  compress : Bool
  compressKeys : List Int

/-- `Volume.asyncDel` (volume.go lines 231-240): non-blocking send of an
offset on the delete channel; fails with `ErrVolumeDel` when the
channel is full. -/
def asyncDel (st : VolumeState) (offset : Nat) : VolumeState × Option StoreErr :=
  if st.signal.length < volumeDelChNum then
    ({ st with signal := st.signal ++ [offset] }, none)
  else (st, some .volumeDel)

/-- `Volume.Del` (volume.go lines 244-270): when the key is in the cache
(tombstoned or not), replace its entry by `pack(0, size)` keeping the
size, record the key in `compressKeys` while compressing, then post the
old offset via `asyncDel`; when the key is absent return `ErrNoNeedle`. -/
def volumeDel (st : VolumeState) (key : Int) : VolumeState × Option StoreErr :=
  match st.needles key with
  | some nc =>
    asyncDel
      { st with
        needles := mapSet st.needles key
          (NewNeedleCache NeedleCacheDelOffset (needleCacheSize nc))
        compressKeys := if st.compress then st.compressKeys ++ [key] else st.compressKeys }
      (needleCacheOffset nc)
  | none => (st, some .noNeedle)

/-- `Volume.Get` (volume.go lines 103-157).  `read offset size` stands
for the positioned super-block read `v.block.Get(offset, buf[:size])`
(the `SuperBlock` source is not under src/; per the spec it reads `size`
bytes at byte offset `offset*8`); `none` is a read error.  The overall
`none` result models the `ParseData` padding-table panic. -/
def volumeGet (read : Nat → Nat → Option (List Nat)) (st : VolumeState)
    (key cookie : Int) : VolumeState × Option (Except StoreErr (List Nat)) :=
  match st.needles key with
  | none => (st, some (.error .noNeedle))
  | some nc =>
    if needleCacheOffset nc = NeedleCacheDelOffset then (st, some (.error .deleted))
    else
      match read (needleCacheOffset nc) (needleCacheSize nc) with
      | none => (st, some (.error .io))
      | some buf =>
        match parseHeader (buf.take NeedleHeaderSize) with
        | .error e => (st, some (.error e))
        | .ok h =>
          match parseData h (buf.drop NeedleHeaderSize) with
          | none => (st, none)
          | some (.error e) => (st, some (.error e))
          | some (.ok nd) =>
            if h.key ≠ key then (st, some (.error .key))
            else if h.cookie ≠ cookie then (st, some (.error .cookie))
            else if h.flag = NeedleStatusDel then
              ({ st with
                 needles := mapSet st.needles key
                   (NewNeedleCache NeedleCacheDelOffset (needleCacheSize nc)) },
               some (.error .deleted))
            else (st, some (.ok nd.data))

/-- `Volume.Add` (volume.go lines 161-190) after a successful
super-block append and indexer ring insert.  `SuperBlock.Add` is not
under src/; per the spec it returns the needle offset and record size of
the appended needle, passed here as `offset` and `size`.  The cache
entry becomes `pack(offset, size)`; when the key previously existed the
old offset is posted via `asyncDel`. -/
def volumeAdd (st : VolumeState) (key : Int) (offset size : Nat) :
    VolumeState × Option StoreErr :=
  match st.needles key with
  | none =>
    ({ st with needles := mapSet st.needles key (NewNeedleCache offset size) }, none)
  | some onc =>
    asyncDel { st with needles := mapSet st.needles key (NewNeedleCache offset size) }
      (needleCacheOffset onc)

/-- `Volume.Write` (volume.go lines 194-219): same cache/queue behaviour
as `Volume.Add` (the caller holds the lock; the super-block append and
indexer write are modelled as in `volumeAdd`). -/
def volumeWrite (st : VolumeState) (key : Int) (offset size : Nat) :
    VolumeState × Option StoreErr :=
  match st.needles key with
  | none =>
    ({ st with needles := mapSet st.needles key (NewNeedleCache offset size) }, none)
  | some onc =>
    asyncDel { st with needles := mapSet st.needles key (NewNeedleCache offset size) }
      (needleCacheOffset onc)

/-- Ascending insertion used to model `sort.Sort(Uint32Slice(offsets))`
(volume.go line 298). -/
def insertAsc (x : Nat) : List Nat → List Nat
  | [] => [x]
  | y :: ys => if x ≤ y then x :: y :: ys else y :: insertAsc x ys

/-- Ascending sort modelling `sort.Sort(Uint32Slice(offsets))`. -/
def sortAsc : List Nat → List Nat
  | [] => []
  | x :: xs => insertAsc x (sortAsc xs)

/-- The `Volume.del` background task (volume.go lines 273-307), drained
over a queue of received offsets.  It returns the offsets passed to
`v.block.Del` in call order.  Receiving `volumeFinish` (0) returns at
once, dropping the accumulated batch; otherwise offsets accumulate and
every `volumeDelMax` of them are sorted ascending and applied.  The
1-minute timer branch (which only flushes a pending batch early) is not
modelled; with input remaining the channel branch is taken. -/
def delTask : List Nat → List Nat → List Nat
  | [], _ => []
  | o :: rest, batch =>
    if o = volumeFinish then []
    else
      if (batch ++ [o]).length < volumeDelMax then delTask rest (batch ++ [o])
      else sortAsc (batch ++ [o]) ++ delTask rest []

/-! ### Indexer recovery (src/unnamed/part_000) -/

def indexSize : Nat := 16

/-- `writeIndex` (indexer lines 111-120): the 16-byte on-disk index
record `key(8) ‖ offset(4) ‖ size(4)`, big-endian. -/
def encodeIndex (key : Int) (offset : Nat) (size : Int) : List Nat :=
  putInt64 key ++ putUint32 offset ++ putInt32 size

/-- The loop of `Indexer.Recovery` (indexer lines 233-252) over the
remaining file bytes.  Returns `(needles, noffset, offset, sawEOF)`:
the updated cache, the `noffset` accumulator (overwritten at every
parsed record with `ix.Offset + NeedleOffset(int64(ix.Size))`, a uint32
sum), the byte offset of the last good record boundary, and whether the
loop ended by `Peek` hitting EOF (fewer than 16 bytes left) rather than
by the size sanity check. -/
def recoveryLoop (rem : List Nat) (needles : Int → Option Nat) (offset noffset : Nat) :
    (Int → Option Nat) × Nat × Nat × Bool :=
  if rem.length < indexSize then (needles, noffset, offset, true)
  else
    if getInt32 (rem.drop 12) > (NeedleMaxSize : Int) ∨ getInt32 (rem.drop 12) < 1 then
      (needles, noffset, offset, false)
    else
      recoveryLoop (rem.drop indexSize)
        (mapSet needles (getInt64 rem)
          (NewNeedleCache (getUint32 (rem.drop 8)) (getInt32 (rem.drop 12)).toNat))
        (offset + indexSize)
        ((getUint32 (rem.drop 8) + NeedleOffset (getInt32 (rem.drop 12)).toNat) % 2 ^ 32)
  termination_by rem.length
  decreasing_by simp only [List.length_drop, indexSize] at *; omega

/-- `Indexer.Recovery` (indexer lines 220-262) on the index file bytes:
run the loop from offset 0 with `noffset = 0`; on the EOF path the file
is seeked back to the last good offset (`some offset`), while after a
malformed size the function returns early without seeking (`none`). -/
def indexerRecovery (file : List Nat) (needles : Int → Option Nat) :
    (Int → Option Nat) × Nat × Option Nat :=
  let r := recoveryLoop file needles 0 0
  (r.1, r.2.1, if r.2.2.2 then some r.2.2.1 else none)

/-! ### Theorems for the claims -/

theorem wrap32_eq (x : Int) (h1 : -2 ^ 31 ≤ x) (h2 : x < 2 ^ 31) : wrap32 x = x := by
  unfold wrap32
  omega

/-- Claim C1 (code bug, evaluation at the failing input): for key 0,
cookie 0 and the 7-byte data `[0,...,0]`, `NeedleSize` succeeds with
padding 8 and record length 48, but `FillNeedle` indexes the 8-entry
table `needlePadding` at 8 — out of range, a Go panic — so no buffer is
produced and the claimed round trip is impossible. -/
theorem fillNeedle_panics_on_seven_byte_data :
    needleSize 7 = (8, 48, false) ∧
    fillNeedle 8 7 0 0 [0, 0, 0, 0, 0, 0, 0] = none := by
  constructor
  · decide
  · rfl

/-- Claim C2 (code bug, evaluation at the failing input): the padding
table has only 8 entries (indices 0..7), yet the sizing rule yields
padding 8 for any data length congruent to 7 mod 8 (here 15); both the
encoder (`FillNeedle`) and the parser (`ParseData`) then read
`needlePadding[8]`, which is out of bounds (Go panic, modelled as
`none`). -/
theorem needlePadding_has_no_entry_8 :
    needleSize 15 = (8, 56, false) ∧
    needlePadding.length = 8 ∧
    needlePadding[8]? = none ∧
    fillNeedle 8 15 1 2 (List.replicate 15 0) = none ∧
    parseData ⟨2, 1, 0, 15, 8, 31⟩
      (List.replicate 15 0 ++ needleFooterMagic ++
        putUint32 (crc32Update (List.replicate 15 0)) ++ List.replicate 8 0) = none := by
  refine ⟨by decide, by decide, by decide, by rfl, by rfl⟩

/-- Claim C4 (counterexample): the claim asserts `NeedleSize` succeeds
for data length 5 MiB − 33 (5242847); in fact the sizing rule adds
padding 8 there (25+5242847+8 is a multiple of 8), giving record length
5242888 > 5 MiB, so it fails with TooLarge. -/
theorem needleSize_fails_at_5MiB_minus_33 :
    needleSize (5 * 1024 * 1024 - 33) = (8, 5242888, true) := by decide

/-- Claim C4 (amended): `NeedleSize` succeeds without TooLarge for data
lengths 1 and 5 MiB − 34, and fails with TooLarge for 5 MiB − 33 and
5 MiB − 32. -/
theorem needleSize_boundaries :
    needleSize 1 = (6, 40, false) ∧
    needleSize (5 * 1024 * 1024 - 34) = (1, 5242880, false) ∧
    needleSize (5 * 1024 * 1024 - 33) = (8, 5242888, true) ∧
    needleSize (5 * 1024 * 1024 - 32) = (7, 5242888, true) := by decide

/-- Claim C5 (counterexample): at data length `2^31 − 33` the int32
computation `25 + ds + 8` overflows, `NeedleSize` reports no error and a
record length of `-2147483640`, although the record length claimed by
the formula, `25 + d + 8 + 8 = 2^31 + 8`, exceeds 5 MiB — so the claim
("TooLarge exactly when the final record_len exceeds 5 MiB", and the
returned record_len equals the formula) is false at this input. -/
theorem needleSize_overflow_breaks_claim :
    needleSize (2 ^ 31 - 33) = (8, -2147483640, false) ∧
    (25 + (2 ^ 31 - 33 : Int) + 8 + (8 - (25 + (2 ^ 31 - 33 : Int) + 8) % 8)
      > 5 * 1024 * 1024) := by decide

/-- Claim C5 (amended): for every data length `d` with `1 ≤ d` and
`d ≤ 2^31 − 42` (no int32 overflow in the sizing computation),
`NeedleSize d` returns `padding = 8 − ((25 + d + 8) mod 8)` and
`record_len = 25 + d + 8 + padding`, and reports TooLarge exactly when
`record_len` exceeds 5 MiB. -/
theorem needleSize_spec (d : Int) (h1 : 1 ≤ d) (h2 : d ≤ 2 ^ 31 - 42) :
    (needleSize d).1 = 8 - (25 + d + 8) % 8 ∧
    (needleSize d).2.1 = 25 + d + 8 + (8 - (25 + d + 8) % 8) ∧
    ((needleSize d).2.2 = true ↔ 25 + d + 8 + (8 - (25 + d + 8) % 8) > 5 * 1024 * 1024) := by
  have e1 : wrap32 (25 + d + 8) = 25 + d + 8 := wrap32_eq _ (by omega) (by omega)
  have e2 : Int.tmod (25 + d + 8) 8 = (25 + d + 8) % 8 :=
    Int.tmod_eq_emod (by omega) (by omega)
  have e3 : wrap32 (25 + d + 8 + (8 - (25 + d + 8) % 8)) =
      25 + d + 8 + (8 - (25 + d + 8) % 8) := wrap32_eq _ (by omega) (by omega)
  simp only [needleSize, e1, e2, e3, NeedleMaxSize, decide_eq_true_iff]
  norm_num

/-- Witness for `needleSize_spec` at `d = 3`. -/
theorem needleSize_spec_witness :
    (needleSize 3).1 = 8 - (25 + (3 : Int) + 8) % 8 :=
  (needleSize_spec 3 (by decide) (by decide)).1

theorem needleCacheSize_lt (nc : Nat) : needleCacheSize nc < 2 ^ 32 :=
  Nat.mod_lt _ (by norm_num)

theorem needleCacheOffset_tombstone (size : Nat) (hs : size < 2 ^ 32) :
    needleCacheOffset (NewNeedleCache NeedleCacheDelOffset size) = NeedleCacheDelOffset := by
  unfold needleCacheOffset NewNeedleCache NeedleCacheDelOffset
  omega

/-- A one-key volume state — key 1 live at offset 3, record size 40,
empty delete queue — for settling the double-delete claim. -/
def delTwiceState : VolumeState :=
  ⟨fun k => if k = 1 then some (NewNeedleCache 3 40) else none, [], false, []⟩

/-- Claim C3 (counterexample): on `delTwiceState`, Del(1) succeeds, and
the second Del(1) immediately after also returns nil (success) — not
the NoNeedle error the claim requires — because the tombstone entry is
still in the cache; the second call posts the tombstone offset 0 to the
delete queue. -/
theorem second_del_returns_nil :
    (volumeDel delTwiceState 1).2 = none ∧
    (volumeDel (volumeDel delTwiceState 1).1 1).2 = none ∧
    (volumeDel (volumeDel delTwiceState 1).1 1).2 ≠ some StoreErr.noNeedle ∧
    (volumeDel (volumeDel delTwiceState 1).1 1).1.signal = [3, 0] := by
  refine ⟨rfl, rfl, by decide, rfl⟩

/-- Claim C3 (amended): after Del(k) on a cached key, Get(k) returns the
Deleted error; but a second Del(k) immediately after the first returns
nil (success, posting the tombstone offset 0 to the delete queue) as
long as the queue has room — not NoNeedle; NoNeedle is returned exactly
for keys absent from the cache. -/
theorem del_del_get_spec (st : VolumeState) (key cookie : Int) (nc : Nat)
    (read : Nat → Nat → Option (List Nat))
    (hk : st.needles key = some nc)
    (hq : st.signal.length + 1 < volumeDelChNum) :
    (volumeDel st key).2 = none ∧
    (volumeGet read (volumeDel st key).1 key cookie).2 = some (.error .deleted) ∧
    (volumeDel (volumeDel st key).1 key).2 = none ∧
    (volumeDel (volumeDel st key).1 key).1.signal =
      st.signal ++ [needleCacheOffset nc, volumeFinish] ∧
    (∀ k, st.needles k = none → (volumeDel st k).2 = some StoreErr.noNeedle) := by
  have hs := needleCacheSize_lt nc
  have htomb := needleCacheOffset_tombstone (needleCacheSize nc) hs
  have hlt : st.signal.length < volumeDelChNum := by omega
  have herr1 : (volumeDel st key).2 = none := by
    simp [volumeDel, hk, asyncDel, hlt]
  have hlook : (volumeDel st key).1.needles key =
      some (NewNeedleCache NeedleCacheDelOffset (needleCacheSize nc)) := by
    simp [volumeDel, hk, asyncDel, hlt, mapSet]
  have hsig1 : (volumeDel st key).1.signal = st.signal ++ [needleCacheOffset nc] := by
    simp [volumeDel, hk, asyncDel, hlt]
  have hlt2 : (volumeDel st key).1.signal.length < volumeDelChNum := by
    rw [hsig1]
    simp
    omega
  obtain ⟨st1, hst1⟩ : ∃ s, (volumeDel st key).1 = s := ⟨_, rfl⟩
  rw [hst1] at hlook hsig1 hlt2
  refine ⟨herr1, ?_, ?_, ?_, ?_⟩
  · rw [hst1]
    simp [volumeGet, hlook, htomb]
  · rw [hst1]
    simp [volumeDel, hlook, asyncDel, hlt2]
  · have htomb0 : needleCacheOffset (NewNeedleCache 0 (needleCacheSize nc)) = 0 := by
      simpa [NeedleCacheDelOffset] using htomb
    rw [hst1]
    simp [volumeDel, hlook, asyncDel, hlt2, hsig1, htomb0, hq, NeedleCacheDelOffset,
      volumeFinish]
  · intro k hnone
    simp [volumeDel, hnone]

/-- Witness for `del_del_get_spec` on `delTwiceState`. -/
theorem del_del_get_spec_witness :
    (volumeGet (fun _ _ => none) (volumeDel delTwiceState 1).1 1 9).2 =
      some (.error .deleted) :=
  (del_del_get_spec delTwiceState 1 9 (NewNeedleCache 3 40) (fun _ _ => none)
    (by rfl) (by decide)).2.1

theorem parseHeader_ne_noNeedle (buf : List Nat) :
    parseHeader buf ≠ .error .noNeedle := by
  intro hcontra
  unfold parseHeader at hcontra
  split_ifs at hcontra <;> simp at hcontra

theorem parseData_ne_noNeedle (h : NeedleHeader) (buf : List Nat) :
    parseData h buf ≠ some (.error .noNeedle) := by
  intro hcontra
  unfold parseData at hcontra
  split_ifs at hcontra
  all_goals try simp at hcontra
  split at hcontra
  all_goals try simp at hcontra
  split_ifs at hcontra
  all_goals simp at hcontra

/-- Claim C6: the branch-by-branch behaviour of `Volume.Get`: NoNeedle
exactly when the key is absent from the cache; Deleted on a cache
tombstone (offset 0); after a successful read and parse, the Key error
when the parsed key differs, then the Cookie error when the parsed
cookie differs; on a parsed Deleted flag the cache entry is overwritten
with a tombstone that keeps the size and Deleted is returned; otherwise
the payload is returned. -/
theorem volumeGet_spec (read : Nat → Nat → Option (List Nat)) (st : VolumeState)
    (key cookie : Int) :
    ((volumeGet read st key cookie).2 = some (.error .noNeedle) ↔
      st.needles key = none) ∧
    (∀ nc, st.needles key = some nc → needleCacheOffset nc = NeedleCacheDelOffset →
      volumeGet read st key cookie = (st, some (.error .deleted))) ∧
    (∀ nc h nd buf, st.needles key = some nc →
      needleCacheOffset nc ≠ NeedleCacheDelOffset →
      read (needleCacheOffset nc) (needleCacheSize nc) = some buf →
      parseHeader (buf.take NeedleHeaderSize) = .ok h →
      parseData h (buf.drop NeedleHeaderSize) = some (.ok nd) →
      (h.key ≠ key → volumeGet read st key cookie = (st, some (.error .key))) ∧
      (h.key = key → h.cookie ≠ cookie →
        volumeGet read st key cookie = (st, some (.error .cookie))) ∧
      (h.key = key → h.cookie = cookie → h.flag = NeedleStatusDel →
        (volumeGet read st key cookie).2 = some (.error .deleted) ∧
        (volumeGet read st key cookie).1.needles =
          mapSet st.needles key
            (NewNeedleCache NeedleCacheDelOffset (needleCacheSize nc)) ∧
        (volumeGet read st key cookie).1.signal = st.signal) ∧
      (h.key = key → h.cookie = cookie → h.flag ≠ NeedleStatusDel →
        volumeGet read st key cookie = (st, some (.ok nd.data)))) := by
  refine ⟨?_, ?_, ?_⟩
  · cases hnc : st.needles key with
    | none => simp [volumeGet, hnc]
    | some nc =>
      constructor
      · intro hres
        exfalso
        simp only [volumeGet, hnc] at hres
        by_cases hoff : needleCacheOffset nc = NeedleCacheDelOffset
        · simp [hoff] at hres
        · rw [if_neg hoff] at hres
          repeat' split at hres
          all_goals simp_all [parseHeader_ne_noNeedle, parseData_ne_noNeedle]
      · intro h
        simp [hnc] at h
  · intro nc hnc hoff
    simp [volumeGet, hnc, hoff]
  · intro nc h nd buf hnc hoff hread hph hpd
    refine ⟨?_, ?_, ?_, ?_⟩
    · intro hkey
      simp [volumeGet, hnc, hoff, hread, hph, hpd, hkey]
    · intro hkey hcookie
      simp [volumeGet, hnc, hoff, hread, hph, hpd, hkey, hcookie]
    · intro hkey hcookie hflag
      simp [volumeGet, hnc, hoff, hread, hph, hpd, hkey, hcookie, hflag]
    · intro hkey hcookie hflag
      simp [volumeGet, hnc, hoff, hread, hph, hpd, hkey, hcookie, hflag]

/-- Claim C6 witness: on a one-key state with an absent key 5, `Get`
returns NoNeedle, by the first branch of `volumeGet_spec`. -/
theorem volumeGet_spec_witness :
    (volumeGet (fun _ _ => none)
      ⟨fun k => if k = 1 then some (NewNeedleCache 3 40) else none, [], false, []⟩
      5 7).2 = some (.error .noNeedle) :=
  (volumeGet_spec (fun _ _ => none)
    ⟨fun k => if k = 1 then some (NewNeedleCache 3 40) else none, [], false, []⟩
    5 7).1.mpr (by decide)

/-- Claim C7: no operation removes a key from the needle cache;
tombstoning (by Del, or by Get seeing an on-disk Deleted flag) keeps
the size field; Add/Write on an existing key installs the new packed
entry and posts the old offset to the delete queue. -/
theorem cache_never_removes_keys (st : VolumeState) :
    (∀ key offset size k', (st.needles k').isSome →
      ((volumeAdd st key offset size).1.needles k').isSome) ∧
    (∀ key offset size k', (st.needles k').isSome →
      ((volumeWrite st key offset size).1.needles k').isSome) ∧
    (∀ key k', (st.needles k').isSome → ((volumeDel st key).1.needles k').isSome) ∧
    (∀ read key cookie k', (st.needles k').isSome →
      ((volumeGet read st key cookie).1.needles k').isSome) ∧
    (∀ key nc, st.needles key = some nc →
      (volumeDel st key).1.needles key =
        some (NewNeedleCache NeedleCacheDelOffset (needleCacheSize nc))) ∧
    (∀ read key cookie nc, st.needles key = some nc →
      (volumeGet read st key cookie).1.needles key = st.needles key ∨
      (volumeGet read st key cookie).1.needles key =
        some (NewNeedleCache NeedleCacheDelOffset (needleCacheSize nc))) ∧
    (∀ key offset size onc, st.needles key = some onc →
      st.signal.length < volumeDelChNum →
      (volumeAdd st key offset size).2 = none ∧
      (volumeAdd st key offset size).1.needles key = some (NewNeedleCache offset size) ∧
      (volumeAdd st key offset size).1.signal = st.signal ++ [needleCacheOffset onc]) ∧
    (∀ key offset size onc, st.needles key = some onc →
      st.signal.length < volumeDelChNum →
      (volumeWrite st key offset size).2 = none ∧
      (volumeWrite st key offset size).1.needles key = some (NewNeedleCache offset size) ∧
      (volumeWrite st key offset size).1.signal = st.signal ++ [needleCacheOffset onc]) := by
  have hmap : ∀ (m : Int → Option Nat) k v k', (m k').isSome → ((mapSet m k v) k').isSome := by
    intro m k v k' hk'
    unfold mapSet
    split <;> simp_all
  refine ⟨?_, ?_, ?_, ?_, ?_, ?_, ?_, ?_⟩
  · intro key offset size k' hk'
    unfold volumeAdd asyncDel
    repeat' split
    all_goals exact hmap _ _ _ _ hk'
  · intro key offset size k' hk'
    unfold volumeWrite asyncDel
    repeat' split
    all_goals exact hmap _ _ _ _ hk'
  · intro key k' hk'
    unfold volumeDel asyncDel
    repeat' split
    all_goals first
      | exact hk'
      | exact hmap _ _ _ _ hk'
  · intro read key cookie k' hk'
    unfold volumeGet
    repeat' split
    all_goals first
      | exact hk'
      | exact hmap _ _ _ _ hk'
  · intro key nc hnc
    unfold volumeDel asyncDel
    rw [hnc]
    repeat' split
    all_goals simp_all [mapSet]
  · intro read key cookie nc hnc
    unfold volumeGet
    rw [hnc]
    repeat' split
    all_goals simp_all [mapSet]
  · intro key offset size onc honc hlen
    simp [volumeAdd, honc, asyncDel, hlen, mapSet]
  · intro key offset size onc honc hlen
    simp [volumeWrite, honc, asyncDel, hlen, mapSet]

/-- Claim C7 witness: replacing the existing key 1 posts the old offset
3 to the delete queue (conjunct 7 of `cache_never_removes_keys`). -/
theorem cache_never_removes_keys_witness :
    (volumeAdd ⟨fun k => if k = 1 then some (NewNeedleCache 3 40) else none, [], false, []⟩
       1 9 48).1.signal = [3] :=
  ((cache_never_removes_keys
      ⟨fun k => if k = 1 then some (NewNeedleCache 3 40) else none, [], false, []⟩).2.2.2.2.2.2.1
    1 9 48 (NewNeedleCache 3 40) (by decide) (by decide)).2.2.trans (by decide)

theorem mem_insertAsc {x a : Nat} {l : List Nat} (h : x ∈ insertAsc a l) :
    x = a ∨ x ∈ l := by
  induction l with
  | nil =>
    simp [insertAsc] at h
    exact Or.inl h
  | cons y ys ih =>
    rw [insertAsc] at h
    split at h
    · simpa using h
    · rcases List.mem_cons.mp h with h1 | h2
      · right
        simp [h1]
      · rcases ih h2 with h3 | h4
        · left
          exact h3
        · right
          simp [h4]

theorem mem_sortAsc {x : Nat} {l : List Nat} (h : x ∈ sortAsc l) : x ∈ l := by
  induction l with
  | nil => simp [sortAsc] at h
  | cons y ys ih =>
    rw [sortAsc] at h
    rcases mem_insertAsc h with h1 | h2
    · simp [h1]
    · simp [ih h2]

theorem delTask_stops_at_sentinel (pre post batch : List Nat) (x : Nat)
    (h : x ∈ delTask (pre ++ volumeFinish :: post) batch) : x ∈ pre ∨ x ∈ batch := by
  induction pre generalizing batch with
  | nil =>
    rw [List.nil_append, delTask, if_pos rfl] at h
    simp at h
  | cons o pre ih =>
    rw [List.cons_append, delTask] at h
    split at h
    · simp at h
    · split at h
      · rcases ih _ h with h1 | h2
        · exact Or.inl (List.mem_cons_of_mem _ h1)
        · rcases List.mem_append.mp h2 with h3 | h4
          · exact Or.inr h3
          · simp at h4
            simp [h4]
      · rcases List.mem_append.mp h with h1 | h2
        · rcases List.mem_append.mp (mem_sortAsc h1) with h3 | h4
          · exact Or.inr h3
          · simp at h4
            simp [h4]
        · rcases ih _ h2 with h3 | h4
          · exact Or.inl (List.mem_cons_of_mem _ h3)
          · simp at h4

/-- Claim C10: Del on a tombstoned key (cache offset field 0) succeeds
when the queue send succeeds and posts offset 0; the delete task treats
a received 0 as the `volumeFinish` sentinel and exits at once, so
offsets queued after the sentinel are never applied to the super
block. -/
theorem del_zero_is_shutdown_sentinel (st : VolumeState) (key : Int) (nc : Nat) :
    (st.needles key = some nc → needleCacheOffset nc = NeedleCacheDelOffset →
      st.signal.length < volumeDelChNum →
      (volumeDel st key).2 = none ∧
      (volumeDel st key).1.signal = st.signal ++ [volumeFinish]) ∧
    (∀ rest batch, delTask (volumeFinish :: rest) batch = []) ∧
    (∀ pre post batch x, x ∈ delTask (pre ++ volumeFinish :: post) batch →
      x ∈ pre ∨ x ∈ batch) := by
  refine ⟨?_, ?_, ?_⟩
  · intro hnc hoff hlen
    constructor
    · simp [volumeDel, hnc, asyncDel, hlen]
    · simp [volumeDel, hnc, asyncDel, hlen, hoff, NeedleCacheDelOffset, volumeFinish]
  · intro rest batch
    rw [delTask, if_pos rfl]
  · exact fun pre post batch x h => delTask_stops_at_sentinel pre post batch x h

/-- Claim C10 witness: on a state whose key 1 is already a tombstone,
Del(1) posts the sentinel 0. -/
theorem del_zero_is_shutdown_sentinel_witness :
    (volumeDel ⟨fun k => if k = 1 then some (NewNeedleCache 0 40) else none, [], false, []⟩
      1).1.signal = [0] :=
  ((del_zero_is_shutdown_sentinel
      ⟨fun k => if k = 1 then some (NewNeedleCache 0 40) else none, [], false, []⟩
      1 (NewNeedleCache 0 40)).1 (by decide) (by decide) (by decide)).2.trans (by decide)

/-! ### Indexer recovery theorems (claim C9) -/

/-- Well-formedness of an index triple `(key, offset, size)`: key in
int64 range, offset in uint32 range, size in [1, 5 MiB]. -/
def indexOk (r : Int × Nat × Int) : Prop :=
  -2 ^ 63 ≤ r.1 ∧ r.1 < 2 ^ 63 ∧ r.2.1 < 2 ^ 32 ∧ 1 ≤ r.2.2 ∧ r.2.2 ≤ (NeedleMaxSize : Int)

instance (r : Int × Nat × Int) : Decidable (indexOk r) := by
  unfold indexOk
  infer_instance

/-- An index file that is a sequence of encoded 16-byte records. -/
def encodeIndexFile : List (Int × Nat × Int) → List Nat
  | [] => []
  | r :: rs => encodeIndex r.1 r.2.1 r.2.2 ++ encodeIndexFile rs

/-- The cache after inserting the records in order (later records for
the same key overwrite earlier ones). -/
def recoverCache (m : Int → Option Nat) : List (Int × Nat × Int) → (Int → Option Nat)
  | [] => m
  | r :: rs => recoverCache (mapSet m r.1 (NewNeedleCache r.2.1 r.2.2.toNat)) rs

/-- The `noffset` accumulator after the records: the uint32 value
`offset + size/8` of the last record (`n0` when there are none). -/
def lastNoffset (n0 : Nat) : List (Int × Nat × Int) → Nat
  | [] => n0
  | r :: rs => lastNoffset ((r.2.1 + NeedleOffset r.2.2.toNat) % 2 ^ 32) rs

theorem encodeIndex_length (k : Int) (o : Nat) (s : Int) :
    (encodeIndex k o s).length = 16 := by
  simp [encodeIndex, putInt64, putUint32, putInt32, putBE_length]

theorem recoveryLoop_eof (rem : List Nat) (m : Int → Option Nat) (off noff : Nat)
    (h : rem.length < 16) :
    recoveryLoop rem m off noff = (m, noff, off, true) := by
  rw [recoveryLoop]
  rw [if_pos (by simpa [indexSize] using h)]

theorem recoveryLoop_cons (k : Int) (o : Nat) (s : Int) (rest : List Nat)
    (m : Int → Option Nat) (off noff : Nat)
    (hk1 : -2 ^ 63 ≤ k) (hk2 : k < 2 ^ 63) (ho : o < 2 ^ 32)
    (hs1 : 1 ≤ s) (hs2 : s ≤ (NeedleMaxSize : Int)) :
    recoveryLoop (encodeIndex k o s ++ rest) m off noff =
      recoveryLoop rest (mapSet m k (NewNeedleCache o s.toNat)) (off + 16)
        ((o + NeedleOffset s.toNat) % 2 ^ 32) := by
  have e0 : encodeIndex k o s ++ rest =
      putInt64 k ++ (putUint32 o ++ (putInt32 s ++ rest)) := by
    simp [encodeIndex]
  have len16 : (encodeIndex k o s ++ rest).length = 16 + rest.length := by
    simp [encodeIndex_length]
  have ekey : getInt64 (encodeIndex k o s ++ rest) = k := by
    rw [e0]
    exact getInt64_putInt64 k _ hk1 hk2
  have edrop8 : (encodeIndex k o s ++ rest).drop 8 = putUint32 o ++ (putInt32 s ++ rest) := by
    rw [e0]
    exact List.drop_left' (by simp [putInt64, putBE_length])
  have eoff : getUint32 ((encodeIndex k o s ++ rest).drop 8) = o := by
    rw [edrop8]
    exact getUint32_putUint32 o _ ho
  have edrop12 : (encodeIndex k o s ++ rest).drop 12 = putInt32 s ++ rest := by
    rw [e0, ← List.append_assoc]
    exact List.drop_left' (by simp [putInt64, putUint32, putBE_length])
  have esize : getInt32 ((encodeIndex k o s ++ rest).drop 12) = s := by
    rw [edrop12]
    refine getInt32_putInt32 s _ (by omega) ?_
    have : (NeedleMaxSize : Int) = 5242880 := by norm_num [NeedleMaxSize]
    omega
  have edrop16 : (encodeIndex k o s ++ rest).drop 16 = rest :=
    List.drop_left' (encodeIndex_length k o s)
  have hc1 : ¬((encodeIndex k o s ++ rest).length < indexSize) := by
    rw [len16]
    simp only [indexSize]
    omega
  have hc2 : ¬(getInt32 ((encodeIndex k o s ++ rest).drop 12) > (NeedleMaxSize : Int) ∨
      getInt32 ((encodeIndex k o s ++ rest).drop 12) < 1) := by
    rw [esize]
    omega
  rw [recoveryLoop, if_neg hc1, if_neg hc2]
  simp only [indexSize]
  rw [ekey, eoff, esize, edrop16]

theorem recoveryLoop_bad_head (k : Int) (o : Nat) (s : Int) (rest : List Nat)
    (m : Int → Option Nat) (off noff : Nat)
    (hs1 : -2 ^ 31 ≤ s) (hs2 : s < 2 ^ 31)
    (hbad : s > (NeedleMaxSize : Int) ∨ s < 1) :
    recoveryLoop (encodeIndex k o s ++ rest) m off noff = (m, noff, off, false) := by
  have e0 : encodeIndex k o s ++ rest =
      putInt64 k ++ (putUint32 o ++ (putInt32 s ++ rest)) := by
    simp [encodeIndex]
  have len16 : (encodeIndex k o s ++ rest).length = 16 + rest.length := by
    simp [encodeIndex_length]
  have edrop12 : (encodeIndex k o s ++ rest).drop 12 = putInt32 s ++ rest := by
    rw [e0, ← List.append_assoc]
    exact List.drop_left' (by simp [putInt64, putUint32, putBE_length])
  have esize : getInt32 ((encodeIndex k o s ++ rest).drop 12) = s := by
    rw [edrop12]
    exact getInt32_putInt32 s _ hs1 hs2
  have hc1 : ¬((encodeIndex k o s ++ rest).length < indexSize) := by
    rw [len16]
    simp only [indexSize]
    omega
  have hc2 : getInt32 ((encodeIndex k o s ++ rest).drop 12) > (NeedleMaxSize : Int) ∨
      getInt32 ((encodeIndex k o s ++ rest).drop 12) < 1 := by
    rw [esize]
    exact hbad
  rw [recoveryLoop, if_neg hc1, if_pos hc2]

theorem recoveryLoop_records (records : List (Int × Nat × Int)) (tail : List Nat)
    (m : Int → Option Nat) (off noff : Nat)
    (hok : ∀ r ∈ records, indexOk r) (htail : tail.length < 16) :
    recoveryLoop (encodeIndexFile records ++ tail) m off noff =
      (recoverCache m records, lastNoffset noff records, off + 16 * records.length, true) := by
  induction records generalizing m off noff with
  | nil =>
    simpa [encodeIndexFile, recoverCache, lastNoffset] using
      recoveryLoop_eof tail m off noff htail
  | cons r rs ih =>
    obtain ⟨k, o, s⟩ := r
    obtain ⟨h1, h2, h3, h4, h5⟩ := hok _ (List.mem_cons_self _ _)
    rw [encodeIndexFile, List.append_assoc,
      recoveryLoop_cons k o s _ m off noff h1 h2 h3 h4 h5,
      ih _ _ _ (fun r hr => hok r (List.mem_cons_of_mem _ hr))]
    simp [recoverCache, lastNoffset]
    omega

theorem recoveryLoop_records_bad (records : List (Int × Nat × Int))
    (bk : Int) (bo : Nat) (bs : Int) (rest2 : List Nat)
    (m : Int → Option Nat) (off noff : Nat)
    (hok : ∀ r ∈ records, indexOk r)
    (hbs1 : -2 ^ 31 ≤ bs) (hbs2 : bs < 2 ^ 31)
    (hbad : bs > (NeedleMaxSize : Int) ∨ bs < 1) :
    recoveryLoop (encodeIndexFile records ++ (encodeIndex bk bo bs ++ rest2)) m off noff =
      (recoverCache m records, lastNoffset noff records, off + 16 * records.length, false) := by
  induction records generalizing m off noff with
  | nil =>
    simpa [encodeIndexFile, recoverCache, lastNoffset] using
      recoveryLoop_bad_head bk bo bs rest2 m off noff hbs1 hbs2 hbad
  | cons r rs ih =>
    obtain ⟨k, o, s⟩ := r
    obtain ⟨h1, h2, h3, h4, h5⟩ := hok _ (List.mem_cons_self _ _)
    rw [encodeIndexFile, List.append_assoc,
      recoveryLoop_cons k o s _ m off noff h1 h2 h3 h4 h5,
      ih _ _ _ (fun r hr => hok r (List.mem_cons_of_mem _ hr))]
    simp [recoverCache, lastNoffset]
    omega

/-- Claim C9 (counterexample): for the single well-formed index record
(key 1, offset 2, size 40), Recovery returns `noffset = 2 + 40/8 = 7`
(the code adds `NeedleOffset(size) = size/8`), while the resume offset
the claim requires is `offset + ceil((25+size+8)/8) = 2 + 10 = 12`. -/
theorem recovery_noffset_counterexample :
    (indexerRecovery (encodeIndex 1 2 40) (fun _ => none)).2.1 = 7 ∧
    2 + (25 + 40 + 8 + 7) / 8 = 12 ∧ (7 : Nat) ≠ 12 := by
  refine ⟨?_, by decide, by decide⟩
  have h : encodeIndex 1 2 40 = encodeIndexFile [((1 : Int), (2 : Nat), (40 : Int))] ++ [] := by
    simp [encodeIndexFile]
  rw [h]
  unfold indexerRecovery
  rw [recoveryLoop_records _ _ _ _ _ (by decide) (by decide)]
  decide

/-- Claim C9 (amended): Recovery scans the file in 16-byte records from
offset 0, inserting each parsed key with `pack(offset, size)` (later
records overwrite earlier ones).  It stops at EOF (fewer than 16 bytes
left), seeking the file back to the last good offset `16·n`; on a
record whose size field is outside [1, 5 MiB] it stops and returns
without seeking.  It returns the `noffset` of the LAST parsed record,
`(offset + size/8) mod 2^32` (floor division), 0 when there are none. -/
theorem indexerRecovery_spec (records : List (Int × Nat × Int)) (tail : List Nat)
    (m : Int → Option Nat)
    (hok : ∀ r ∈ records, indexOk r) (htail : tail.length < 16) :
    indexerRecovery (encodeIndexFile records ++ tail) m =
      (recoverCache m records, lastNoffset 0 records, some (16 * records.length)) ∧
    (∀ bk bs rest2, ∀ bo : Nat, -2 ^ 31 ≤ bs → bs < 2 ^ 31 →
      (bs > (NeedleMaxSize : Int) ∨ bs < 1) →
      indexerRecovery (encodeIndexFile records ++ (encodeIndex bk bo bs ++ rest2)) m =
        (recoverCache m records, lastNoffset 0 records, none)) := by
  constructor
  · unfold indexerRecovery
    rw [recoveryLoop_records records tail m 0 0 hok htail]
    simp
  · intro bk bs rest2 bo hbs1 hbs2 hbad
    unfold indexerRecovery
    rw [recoveryLoop_records_bad records bk bo bs rest2 m 0 0 hok hbs1 hbs2 hbad]
    simp

/-- Claim C9 witness: two records with the same key 1 — the second
overwrites the first in the cache, and the returned offset pair is that
of the last record (5 + 48/8 = 11), with the seek at 32. -/
theorem indexerRecovery_spec_witness :
    (indexerRecovery (encodeIndexFile [(1, 2, 40), (1, 5, 48)]) (fun _ => none)).2 =
      (lastNoffset 0 [(1, 2, 40), (1, 5, 48)], some 32) ∧
    lastNoffset 0 [(1, 2, 40), (1, 5, 48)] = 11 := by
  constructor
  · have h := (indexerRecovery_spec [(1, 2, 40), (1, 5, 48)] [] (fun _ => none)
      (by decide) (by decide)).1
    rw [show encodeIndexFile [(1, 2, 40), (1, 5, 48)] ++ [] =
        encodeIndexFile [(1, 2, 40), (1, 5, 48)] from List.append_nil _] at h
    rw [h]
    decide
  · decide

/-! ### CRC-32 injectivity facts (claim C8) -/

theorem xor_mod_two_pow (x y n : Nat) :
    (x ^^^ y) % 2 ^ n = x % 2 ^ n ^^^ y % 2 ^ n := by
  apply Nat.eq_of_testBit_eq
  intro i
  simp only [Nat.testBit_mod_two_pow, Nat.testBit_xor]
  by_cases h : i < n <;> simp [h]

theorem xor_div_two_pow (x y n : Nat) :
    (x ^^^ y) / 2 ^ n = x / 2 ^ n ^^^ y / 2 ^ n := by
  induction n with
  | zero => simp
  | succ n ih =>
    have e : ∀ z : Nat, z / 2 ^ (n + 1) = z / 2 ^ n / 2 := by
      intro z
      rw [Nat.div_div_eq_div_mul, pow_succ]
    rw [e, e, e, ih, Nat.xor_div_two]

theorem crcBitStep_lt (c : Nat) (h : c < 2 ^ 32) : crcBitStep c < 2 ^ 32 := by
  unfold crcBitStep crc32KoopmanPoly
  split
  · exact Nat.xor_lt_two_pow (by omega) (by norm_num)
  · omega

theorem crc32TableEntry_lt (i : Nat) (h : i < 2 ^ 32) : crc32TableEntry i < 2 ^ 32 :=
  crcBitStep_lt _ (crcBitStep_lt _ (crcBitStep_lt _ (crcBitStep_lt _ (crcBitStep_lt _
    (crcBitStep_lt _ (crcBitStep_lt _ (crcBitStep_lt _ h)))))))

theorem crc32Step_lt (c b : Nat) (hc : c < 2 ^ 32) : crc32Step c b < 2 ^ 32 := by
  unfold crc32Step
  refine Nat.xor_lt_two_pow (crc32TableEntry_lt _ ?_) (by omega)
  have : (c ^^^ b) % 256 < 256 := Nat.mod_lt _ (by norm_num)
  omega

theorem crcFold_lt (l : List Nat) (c : Nat) (hc : c < 2 ^ 32) :
    l.foldl crc32Step c < 2 ^ 32 := by
  induction l generalizing c with
  | nil => simpa using hc
  | cons b l ih =>
    simp only [List.foldl_cons]
    exact ih _ (crc32Step_lt c b hc)

theorem crc32Update_lt (data : List Nat) : crc32Update data < 2 ^ 32 :=
  Nat.xor_lt_two_pow (crcFold_lt data _ (by norm_num)) (by norm_num)

/-- The top bytes of the 256 Koopman table entries, as a literal list
(validated against the definition by `crc32TopBytes_eq`). -/
def crc32TopBytes : List Nat :=
  [0, 150, 251, 109, 32, 182, 219, 77, 65, 215, 186, 44, 97, 247, 154,
  12, 131, 21, 120, 238, 163, 53, 88, 206, 194, 84, 57, 175, 226, 116,
  25, 143, 209, 71, 42, 188, 241, 103, 10, 156, 144, 6, 107, 253, 176,
  38, 75, 221, 82, 196, 169, 63, 114, 228, 137, 31, 19, 133, 232, 126,
  51, 165, 200, 94, 117, 227, 142, 24, 85, 195, 174, 56, 52, 162, 207,
  89, 20, 130, 239, 121, 246, 96, 13, 155, 214, 64, 45, 187, 183, 33,
  76, 218, 151, 1, 108, 250, 164, 50, 95, 201, 132, 18, 127, 233, 229,
  115, 30, 136, 197, 83, 62, 168, 39, 177, 220, 74, 7, 145, 252, 106,
  102, 240, 157, 11, 70, 208, 189, 43, 235, 125, 16, 134, 203, 93, 48,
  166, 170, 60, 81, 199, 138, 28, 113, 231, 104, 254, 147, 5, 72, 222,
  179, 37, 41, 191, 210, 68, 9, 159, 242, 100, 58, 172, 193, 87, 26,
  140, 225, 119, 123, 237, 128, 22, 91, 205, 160, 54, 185, 47, 66, 212,
  153, 15, 98, 244, 248, 110, 3, 149, 216, 78, 35, 181, 158, 8, 101,
  243, 190, 40, 69, 211, 223, 73, 36, 178, 255, 105, 4, 146, 29, 139,
  230, 112, 61, 171, 198, 80, 92, 202, 167, 49, 124, 234, 135, 17, 79,
  217, 180, 34, 111, 249, 148, 2, 14, 152, 245, 99, 46, 184, 213, 67,
  204, 90, 55, 161, 236, 122, 23, 129, 141, 27, 118, 224, 173, 59, 86,
  192]

theorem crc32TopBytes_eq :
    (List.range 256).map (fun t => crc32TableEntry t / 2 ^ 24) = crc32TopBytes := by
  decide

theorem crc32TopBytes_nodup : crc32TopBytes.Nodup := by decide

theorem crc32Table_top_nodup :
    ((List.range 256).map (fun t => crc32TableEntry t / 2 ^ 24)).Nodup := by
  rw [crc32TopBytes_eq]
  exact crc32TopBytes_nodup

theorem crc32Table_top_inj (i j : Nat) (hi : i < 256) (hj : j < 256) (hne : i ≠ j) :
    crc32TableEntry i / 2 ^ 24 ≠ crc32TableEntry j / 2 ^ 24 := by
  intro hcontra
  have hi2 : i < ((List.range 256).map (fun t => crc32TableEntry t / 2 ^ 24)).length := by
    simpa using hi
  have hj2 : j < ((List.range 256).map (fun t => crc32TableEntry t / 2 ^ 24)).length := by
    simpa using hj
  have hgi : ((List.range 256).map (fun t => crc32TableEntry t / 2 ^ 24)).get ⟨i, hi2⟩ =
      crc32TableEntry i / 2 ^ 24 := by
    simp
  have hgj : ((List.range 256).map (fun t => crc32TableEntry t / 2 ^ 24)).get ⟨j, hj2⟩ =
      crc32TableEntry j / 2 ^ 24 := by
    simp
  have heq := (@List.Nodup.get_inj_iff _ _ crc32Table_top_nodup
    ⟨i, hi2⟩ ⟨j, hj2⟩).mp (by rw [hgi, hgj]; exact hcontra)
  exact hne (by simpa using congrArg Fin.val heq)

theorem crc32TableEntry_inj (i j : Nat) (hi : i < 256) (hj : j < 256) (hne : i ≠ j) :
    crc32TableEntry i ≠ crc32TableEntry j := by
  intro hcontra
  exact crc32Table_top_inj i j hi hj hne (by rw [hcontra])

theorem xor_swap_sides {a b x y : Nat} (h : a ^^^ x = b ^^^ y) : a ^^^ b = x ^^^ y := by
  apply Nat.eq_of_testBit_eq
  intro i
  have hb := congrArg (fun t => t.testBit i) h
  simp only [Nat.testBit_xor] at hb ⊢
  cases ha : a.testBit i <;> cases hbb : b.testBit i <;>
    cases hx : x.testBit i <;> cases hy : y.testBit i <;> simp_all

/-- The byte-step of the CRC is injective in the state: two distinct
32-bit states stay distinct after absorbing the same byte. -/
theorem crc32Step_inj_state (c1 c2 b : Nat) (h1 : c1 < 2 ^ 32) (h2 : c2 < 2 ^ 32)
    (hne : c1 ≠ c2) : crc32Step c1 b ≠ crc32Step c2 b := by
  intro hcontra
  unfold crc32Step at hcontra
  by_cases hl : (c1 ^^^ b) % 256 = (c2 ^^^ b) % 256
  · rw [hl] at hcontra
    have hdiv : c1 / 256 = c2 / 256 := Nat.xor_right_inj.mp hcontra
    have hmod : c1 % 256 = c2 % 256 := by
      have e1 := xor_mod_two_pow c1 b 8
      have e2 := xor_mod_two_pow c2 b 8
      norm_num at e1 e2
      rw [e1, e2] at hl
      exact Nat.xor_left_inj.mp hl
    omega
  · have hT := xor_swap_sides hcontra
    have hlt1 : (c1 ^^^ b) % 256 < 256 := Nat.mod_lt _ (by norm_num)
    have hlt2 : (c2 ^^^ b) % 256 < 256 := Nat.mod_lt _ (by norm_num)
    have htop := crc32Table_top_inj _ _ hlt1 hlt2 hl
    have hTtop : (crc32TableEntry ((c1 ^^^ b) % 256) ^^^
        crc32TableEntry ((c2 ^^^ b) % 256)) / 2 ^ 24 ≠ 0 := by
      rw [xor_div_two_pow]
      simp only [ne_eq, Nat.xor_eq_zero]
      exact htop
    have hdlt : c1 / 256 ^^^ c2 / 256 < 2 ^ 24 :=
      Nat.xor_lt_two_pow (by omega) (by omega)
    rw [hT] at hTtop
    exact hTtop (Nat.div_eq_of_lt hdlt)

/-- The byte-step of the CRC is injective in the byte: the same state
absorbing two distinct bytes yields distinct states. -/
theorem crc32Step_inj_byte (c b1 b2 : Nat) (hb1 : b1 < 256) (hb2 : b2 < 256)
    (hne : b1 ≠ b2) : crc32Step c b1 ≠ crc32Step c b2 := by
  intro hcontra
  unfold crc32Step at hcontra
  have hl : (c ^^^ b1) % 256 ≠ (c ^^^ b2) % 256 := by
    intro he
    have e1 := xor_mod_two_pow c b1 8
    have e2 := xor_mod_two_pow c b2 8
    norm_num at e1 e2
    rw [e1, e2] at he
    rw [Nat.mod_eq_of_lt hb1, Nat.mod_eq_of_lt hb2] at he
    exact hne (Nat.xor_right_inj.mp he)
  have hlt1 : (c ^^^ b1) % 256 < 256 := Nat.mod_lt _ (by norm_num)
  have hlt2 : (c ^^^ b2) % 256 < 256 := Nat.mod_lt _ (by norm_num)
  exact crc32TableEntry_inj _ _ hlt1 hlt2 hl (Nat.xor_left_inj.mp hcontra)

theorem crcFold_inj (l : List Nat) (c1 c2 : Nat) (h1 : c1 < 2 ^ 32) (h2 : c2 < 2 ^ 32)
    (hne : c1 ≠ c2) : l.foldl crc32Step c1 ≠ l.foldl crc32Step c2 := by
  induction l generalizing c1 c2 with
  | nil => simpa using hne
  | cons b l ih =>
    simp only [List.foldl_cons]
    exact ih _ _ (crc32Step_lt _ _ h1) (crc32Step_lt _ _ h2)
      (crc32Step_inj_state _ _ _ h1 h2 hne)

/-- Changing one byte of the input changes the CRC. -/
theorem crc32Update_set_ne (pre suf : List Nat) (b1 b2 : Nat)
    (hb1 : b1 < 256) (hb2 : b2 < 256) (hne : b1 ≠ b2) :
    crc32Update (pre ++ b1 :: suf) ≠ crc32Update (pre ++ b2 :: suf) := by
  intro hcontra
  unfold crc32Update at hcontra
  have hfold := Nat.xor_left_inj.mp hcontra
  rw [List.foldl_append, List.foldl_append] at hfold
  simp only [List.foldl_cons] at hfold
  have hc : pre.foldl crc32Step 0xFFFFFFFF < 2 ^ 32 := crcFold_lt _ _ (by norm_num)
  exact crcFold_inj suf _ _ (crc32Step_lt _ _ hc) (crc32Step_lt _ _ hc)
    (crc32Step_inj_byte _ _ _ hb1 hb2 hne) hfold


/-! ### Byte-list helpers for the corruption claim -/

theorem putBE_bytes_lt (n x : Nat) : ∀ b ∈ putBE n x, b < 256 := by
  induction n generalizing x with
  | zero => simp [putBE]
  | succ n ih =>
    intro b hb
    simp only [putBE, List.mem_cons] at hb
    rcases hb with hb | hb
    · subst hb
      exact Nat.mod_lt _ (by norm_num)
    · exact ih x b hb

theorem beUint_lt (l : List Nat) (h : ∀ b ∈ l, b < 256) :
    beUint l < 256 ^ l.length := by
  induction l with
  | nil => simp [beUint]
  | cons b bs ih =>
    simp only [beUint, List.length_cons]
    have hb : b < 256 := h b (List.mem_cons_self _ _)
    have hbs := ih (fun x hx => h x (List.mem_cons_of_mem _ hx))
    calc b * 256 ^ bs.length + beUint bs
        < b * 256 ^ bs.length + 256 ^ bs.length := by omega
      _ = (b + 1) * 256 ^ bs.length := by ring
      _ ≤ 256 * 256 ^ bs.length := Nat.mul_le_mul_right _ (by omega)
      _ = 256 ^ (bs.length + 1) := by ring

theorem beUint_inj : ∀ l1 l2 : List Nat, l1.length = l2.length →
    (∀ b ∈ l1, b < 256) → (∀ b ∈ l2, b < 256) → beUint l1 = beUint l2 → l1 = l2 := by
  intro l1
  induction l1 with
  | nil =>
    intro l2 hlen _ _ _
    cases l2 with
    | nil => rfl
    | cons c cs => simp at hlen
  | cons b bs ih =>
    intro l2 hlen h1 h2 h
    cases l2 with
    | nil => simp at hlen
    | cons c cs =>
      have hlen2 : bs.length = cs.length := by simpa using hlen
      simp only [beUint] at h
      rw [hlen2] at h
      have hv1 := beUint_lt bs (fun x hx => h1 x (List.mem_cons_of_mem _ hx))
      have hv2 := beUint_lt cs (fun x hx => h2 x (List.mem_cons_of_mem _ hx))
      rw [hlen2] at hv1
      have hK : 0 < 256 ^ cs.length := Nat.pos_pow_of_pos _ (by norm_num)
      have e1 : (b * 256 ^ cs.length + beUint bs) / 256 ^ cs.length = b := by
        rw [Nat.mul_comm, Nat.mul_add_div hK, Nat.div_eq_of_lt hv1]
        omega
      have e2 : (c * 256 ^ cs.length + beUint cs) / 256 ^ cs.length = c := by
        rw [Nat.mul_comm, Nat.mul_add_div hK, Nat.div_eq_of_lt hv2]
        omega
      have hbc : b = c := by rw [← e1, ← e2, h]
      subst hbc
      have hvv : beUint bs = beUint cs := by omega
      rw [ih cs hlen2 (fun x hx => h1 x (List.mem_cons_of_mem _ hx))
        (fun x hx => h2 x (List.mem_cons_of_mem _ hx)) hvv]

theorem set_eq_parts (l : List Nat) (i : Nat) (b : Nat) (h : i < l.length) :
    l.set i b = l.take i ++ b :: l.drop (i + 1) := by
  induction l generalizing i with
  | nil => simp at h
  | cons x xs ih =>
    cases i with
    | zero => simp
    | succ j =>
      have hj : j < xs.length := by simpa using h
      simp only [List.set_cons_succ, List.take_succ_cons, List.drop_succ_cons,
        List.cons_append]
      rw [ih j hj]

theorem eq_parts_of_lt (l : List Nat) (i : Nat) (h : i < l.length) :
    l = l.take i ++ l.getD i 0 :: l.drop (i + 1) := by
  conv_lhs => rw [← List.take_append_drop i l]
  congr 1
  rw [List.drop_eq_getElem_cons h]
  congr 1
  simp [List.getD_eq_getElem?_getD, List.getElem?_eq_getElem h]

theorem set_ne_self (l : List Nat) (j : Nat) (b : Nat) (hj : j < l.length)
    (hne : b ≠ l.getD j 0) : l.set j b ≠ l := by
  intro hcontra
  apply hne
  have hg := congrArg (fun t => List.getD t j 0) hcontra
  simpa [List.getD_eq_getElem?_getD, List.getElem?_set_self hj,
    List.getElem?_eq_getElem hj] using hg

theorem fillNeedle_some (p size key cookie : Int) (data buf : List Nat)
    (h : fillNeedle p size key cookie data = some buf) :
    ∃ pad, needlePadding[p.toNat]? = some pad ∧
      buf = needleHeaderMagic ++ putInt64 cookie ++ putInt64 key ++ [NeedleStatusOK] ++
        putInt32 size ++ data ++ needleFooterMagic ++ putUint32 (crc32Update data) ++ pad := by
  unfold fillNeedle at h
  split at h
  · exact absurd h (by simp)
  · split at h
    · exact absurd h (by simp)
    · rename_i pad hpad
      refine ⟨pad, hpad, ?_⟩
      simpa using h.symm

theorem record_drop_header (cookie key size : Int) (rest : List Nat) :
    (needleHeaderMagic ++ putInt64 cookie ++ putInt64 key ++ [NeedleStatusOK] ++
      putInt32 size ++ rest).drop NeedleHeaderSize = rest := by
  have e : needleHeaderMagic ++ putInt64 cookie ++ putInt64 key ++ [NeedleStatusOK] ++
      putInt32 size ++ rest =
      (needleHeaderMagic ++ (putInt64 cookie ++ (putInt64 key ++ ([NeedleStatusOK] ++
        putInt32 size)))) ++ rest := by
    simp [List.append_assoc]
  rw [e]
  apply List.drop_left'
  simp [needleHeaderMagic, putInt64, putInt32, putBE_length, NeedleHeaderSize,
    needleMagicSize, needleCookieSize, needleKeySize, needleFlagSize, needleSizeSize]


/-- Claim C8: corruption of a valid encoded needle record is detected
by `ParseData`: changing any single byte of the data region yields the
checksum error; changing any byte (in particular flipping any bit) of
the footer magic yields the footer-magic error, and of the stored
checksum field yields the checksum error — never a payload. -/
theorem corruption_detected (p key cookie : Int) (data buf : List Nat) (h : NeedleHeader)
    (hbytes : ∀ b ∈ data, b < 256)
    (hfill : fillNeedle p (data.length : Int) key cookie data = some buf)
    (hs : h.size = (data.length : Int)) :
    (∀ i b, i < data.length → b < 256 → b ≠ data.getD i 0 →
      parseData h ((buf.drop NeedleHeaderSize).set i b) = some (.error .checksum)) ∧
    (∀ j b, j < 4 → b ≠ needleFooterMagic.getD j 0 →
      parseData h ((buf.drop NeedleHeaderSize).set (data.length + j) b) =
        some (.error .footerMagic)) ∧
    (∀ j b, j < 4 → b < 256 → b ≠ (putUint32 (crc32Update data)).getD j 0 →
      parseData h ((buf.drop NeedleHeaderSize).set (data.length + 4 + j) b) =
        some (.error .checksum)) := by
  obtain ⟨pad, hpad, hbuf⟩ := fillNeedle_some _ _ _ _ _ _ hfill
  have hbody : buf.drop NeedleHeaderSize =
      data ++ (needleFooterMagic ++ (putUint32 (crc32Update data) ++ pad)) := by
    rw [hbuf]
    rw [show needleHeaderMagic ++ putInt64 cookie ++ putInt64 key ++ [NeedleStatusOK] ++
        putInt32 (data.length : Int) ++ data ++ needleFooterMagic ++
        putUint32 (crc32Update data) ++ pad =
        needleHeaderMagic ++ putInt64 cookie ++ putInt64 key ++ [NeedleStatusOK] ++
        putInt32 (data.length : Int) ++
        (data ++ (needleFooterMagic ++ (putUint32 (crc32Update data) ++ pad))) from by
      simp [List.append_assoc]]
    exact record_drop_header cookie key _ _
  have hsize : h.size.toNat = data.length := by
    rw [hs]
    simp
  refine ⟨?_, ?_, ?_⟩
  · intro i b hi hb hne
    have hset : (buf.drop NeedleHeaderSize).set i b =
        data.set i b ++ (needleFooterMagic ++ (putUint32 (crc32Update data) ++ pad)) := by
      rw [hbody]
      exact List.set_append_left i b hi
    have hlen2 : (data.set i b).length = data.length := by simp
    have e1 : (data.set i b ++
        (needleFooterMagic ++ (putUint32 (crc32Update data) ++ pad))).drop data.length =
        needleFooterMagic ++ (putUint32 (crc32Update data) ++ pad) :=
      List.drop_left' hlen2
    have e2 : (data.set i b ++
        (needleFooterMagic ++ (putUint32 (crc32Update data) ++ pad))).take data.length =
        data.set i b := List.take_left' hlen2
    have e3 : (needleFooterMagic ++ (putUint32 (crc32Update data) ++ pad)).take 4 =
        needleFooterMagic := List.take_left' (by simp [needleFooterMagic])
    have e4 : (data.set i b ++
        (needleFooterMagic ++ (putUint32 (crc32Update data) ++ pad))).drop
        (data.length + 4) = putUint32 (crc32Update data) ++ pad := by
      rw [← List.append_assoc]
      exact List.drop_left' (by simp [needleFooterMagic])
    have e5 : getUint32 (putUint32 (crc32Update data) ++ pad) = crc32Update data :=
      getUint32_putUint32 _ _ (crc32Update_lt data)
    have hold : data.getD i 0 < 256 := by
      have hmem : data.getD i 0 ∈ data := by
        rw [List.getD_eq_getElem?_getD, List.getElem?_eq_getElem hi]
        simp
      exact hbytes _ hmem
    have hcrcne : crc32Update data ≠ crc32Update (data.set i b) := by
      have hd := eq_parts_of_lt data i hi
      have hd2 := set_eq_parts data i b hi
      have hstep := crc32Update_set_ne (data.take i) (data.drop (i + 1))
        (data.getD i 0) b hold hb (fun hh => hne hh.symm)
      rw [← hd, ← hd2] at hstep
      exact hstep
    unfold parseData
    rw [hset, hsize, e1, e2, e3, e4, e5, if_pos rfl, if_neg hcrcne]
  · intro j b hj hne
    have hset : (buf.drop NeedleHeaderSize).set (data.length + j) b =
        data ++ (needleFooterMagic.set j b ++ (putUint32 (crc32Update data) ++ pad)) := by
      rw [hbody]
      rw [List.set_append_right _ _ (by omega)]
      congr 1
      rw [show data.length + j - data.length = j from by omega]
      exact List.set_append_left j b (by simp [needleFooterMagic]; omega)
    have e1 : (data ++
        (needleFooterMagic.set j b ++ (putUint32 (crc32Update data) ++ pad))).drop
        data.length = needleFooterMagic.set j b ++ (putUint32 (crc32Update data) ++ pad) :=
      List.drop_left' rfl
    have e3 : (needleFooterMagic.set j b ++ (putUint32 (crc32Update data) ++ pad)).take 4 =
        needleFooterMagic.set j b := List.take_left' (by simp [needleFooterMagic])
    have hfm : needleFooterMagic.set j b ≠ needleFooterMagic :=
      set_ne_self _ j b (by simp [needleFooterMagic]; omega) hne
    unfold parseData
    rw [hset, hsize, e1, e3, if_neg hfm]
  · intro j b hj hb hne
    have hset : (buf.drop NeedleHeaderSize).set (data.length + 4 + j) b =
        data ++ (needleFooterMagic ++ ((putUint32 (crc32Update data)).set j b ++ pad)) := by
      rw [hbody]
      rw [List.set_append_right _ _ (by omega)]
      congr 1
      rw [show data.length + 4 + j - data.length = 4 + j from by omega]
      rw [List.set_append_right _ _ (by simp [needleFooterMagic])]
      congr 1
      rw [show 4 + j - needleFooterMagic.length = j from by simp [needleFooterMagic]]
      exact List.set_append_left j b (by simp [putUint32, putBE_length]; omega)
    have e1 : (data ++ (needleFooterMagic ++
        ((putUint32 (crc32Update data)).set j b ++ pad))).drop data.length =
        needleFooterMagic ++ ((putUint32 (crc32Update data)).set j b ++ pad) :=
      List.drop_left' rfl
    have e3 : (needleFooterMagic ++
        ((putUint32 (crc32Update data)).set j b ++ pad)).take 4 = needleFooterMagic :=
      List.take_left' (by simp [needleFooterMagic])
    have e2 : (data ++ (needleFooterMagic ++
        ((putUint32 (crc32Update data)).set j b ++ pad))).take data.length = data :=
      List.take_left' rfl
    have e4 : (data ++ (needleFooterMagic ++
        ((putUint32 (crc32Update data)).set j b ++ pad))).drop (data.length + 4) =
        (putUint32 (crc32Update data)).set j b ++ pad := by
      rw [← List.append_assoc]
      exact List.drop_left' (by simp [needleFooterMagic])
    have hlenck : ((putUint32 (crc32Update data)).set j b).length = 4 := by
      simp [putUint32, putBE_length]
    have e5 : getUint32 ((putUint32 (crc32Update data)).set j b ++ pad) =
        beUint ((putUint32 (crc32Update data)).set j b) := by
      unfold getUint32
      rw [List.take_left' hlenck]
    have hne2 : beUint ((putUint32 (crc32Update data)).set j b) ≠ crc32Update data := by
      intro hcontra
      have hckbytes : ∀ x ∈ putUint32 (crc32Update data), x < 256 := putBE_bytes_lt 4 _
      have hsetbytes : ∀ x ∈ (putUint32 (crc32Update data)).set j b, x < 256 := by
        intro x hx
        rcases List.mem_or_eq_of_mem_set hx with hx1 | hx2
        · exact hckbytes _ hx1
        · omega
      have hval : beUint (putUint32 (crc32Update data)) = crc32Update data := by
        unfold putUint32
        rw [beUint_putBE]
        have h4 : (256 : Nat) ^ 4 = 2 ^ 32 := by norm_num
        rw [h4]
        exact Nat.mod_eq_of_lt (crc32Update_lt data)
      have heq2 : (putUint32 (crc32Update data)).set j b = putUint32 (crc32Update data) := by
        apply beUint_inj _ _ (by simp) hsetbytes hckbytes
        rw [hcontra, hval]
      exact set_ne_self _ j b (by simp [putUint32, putBE_length]; omega) hne heq2
    unfold parseData
    rw [hset, hsize, e1, e2, e3, e4, e5, if_pos rfl, if_neg hne2]


/-- Claim C8 witness: in the record for key 7, cookie 9, data [1,2,3]
(padding 4), changing data byte 0 to 5 makes `ParseData` return the
checksum error. -/
theorem corruption_detected_witness :
    parseData ⟨9, 7, 0, 3, 4, 15⟩
      ((((fillNeedle 4 3 7 9 [1, 2, 3]).getD []).drop NeedleHeaderSize).set 0 5) =
      some (.error .checksum) :=
  (corruption_detected 4 7 9 [1, 2, 3] ((fillNeedle 4 3 7 9 [1, 2, 3]).getD [])
    ⟨9, 7, 0, 3, 4, 15⟩ (by decide) (by rfl) (by decide)).1 0 5 (by decide) (by decide)
    (by decide)


end Store
